import Mathlib

/-!
Shallow embedding of the WGPU-Engine voxel scene (`src/entities/main_scene.rs`)
and world renderable aggregation (`src/app/app_world/mod.rs`).

Machine notes on the embedding:
* Rust `i32` coordinates are modelled as `Int`; every value manipulated here is
  far from the `i32` boundaries, and no arithmetic in the modelled code wraps.
* `f32` in `Sphere`/`distance` is modelled as `Rat`: all values appearing in the
  relevant code paths (small integers cast to `f32`, the literal `1.5`, squares
  and sums of these) are exactly representable in `f32`, and every `f32`
  operation performed on them (subtraction, squaring, addition, comparison) is
  exact there, so `Rat` arithmetic agrees with the `f32` computation.
* The Rust `HashMap<(i32,i32,i32), Voxel>` always stores, at key `(x,y,z)`, the
  voxel `Voxel { position: (x,y,z) }` (see `Shape::process`); the map is
  therefore represented by its key set, a `Finset (Int × Int × Int)`.
  No code ever iterates the `HashMap` itself (both `process` and
  `make_instances` scan the bounding region ranges), so hash iteration order
  plays no role and the `Finset` representation loses nothing.
-/

/-- Integer lattice coordinate, `(x, y, z)` — the key type of `Shape.map`. -/

abbrev Coord := Int × Int × Int

/-- `ShapeAction` from `main_scene.rs`: `{Additive, Subtractive, NoChange}`. -/
inductive ShapeAction where
  | Additive
  | Subtractive
  | NoChange
deriving DecidableEq, Repr

/-- The `Shapable` trait: a predicate object with
`fn work(&self, action, x, y, z) -> ShapeAction`. Trait objects are modelled
as a structure holding the `work` function. -/
structure Shapable where
  work : ShapeAction → Int → Int → Int → ShapeAction

/-- A `StandardInstance`: position vector and rotation quaternion.
Positions produced by this code are `i32` lattice coordinates cast to `f32`
(exact for all values in range here), kept as `Int`; the quaternion components
are kept as `Rat` (the code only ever writes the zero quaternion). -/
structure StandardInstance where
  position : Coord
  rotationQuat : Rat × Rat × Rat × Rat
deriving DecidableEq, Repr

/-- `StandardInstance::new(position, rotation)`. -/
def StandardInstance.new (position : Coord) (rotationQuat : Rat × Rat × Rat × Rat) :
    StandardInstance :=
  ⟨position, rotationQuat⟩

/-- `Voxel::to_instance`: instance at the voxel's position (cast to `f32`),
with `Quaternion::new(0.0, 0.0, 0.0, 0.0)`. A `Voxel` is represented by its
position, the only data it carries. -/
def Voxel.to_instance (p : Coord) : StandardInstance :=
  StandardInstance.new p (0, 0, 0, 0)

/-- The `Shape` struct: bounding region `[min, max)` on each axis plus the
sparse voxel map (represented by its key set, see the header note). -/
structure Shape where
  min_x : Int
  min_y : Int
  min_z : Int
  max_x : Int
  max_y : Int
  max_z : Int
  map : Finset Coord
deriving DecidableEq

/-- `Shape::new`: stores the six bounds and an empty map. No validation of the
bounds is performed (`main_scene.rs` lines 54–64). -/
def Shape.new (min_x min_y min_z max_x max_y max_z : Int) : Shape :=
  ⟨min_x, min_y, min_z, max_x, max_y, max_z, ∅⟩

/-- The Rust range `lo..hi` as a list: `lo, lo+1, …, hi-1`; empty when
`hi ≤ lo`. -/
def rangeInt (lo hi : Int) : List Int :=
  (List.range (hi - lo).toNat).map (fun i : Nat => lo + (i : Int))

/-- The scan order of both `process` and `make_instances`: `x` outermost over
`min_x..max_x`, then `y`, then `z`. -/
def Shape.coords (s : Shape) : List Coord :=
  (rangeInt s.min_x s.max_x).flatMap (fun x =>
    (rangeInt s.min_y s.max_y).flatMap (fun y =>
      (rangeInt s.min_z s.max_z).map (fun z => (x, y, z))))

/-- One loop body of `Shape::process`: dispatch on `shapeable.work(action, x, y, z)`,
inserting or removing at `(x,y,z)` (the inserted `Voxel` carries exactly this
position). -/
def Shape.processStep (shapeable : Shapable) (action : ShapeAction)
    (m : Finset Coord) (p : Coord) : Finset Coord :=
  match shapeable.work action p.1 p.2.1 p.2.2 with
  | ShapeAction.Additive => insert p m
  | ShapeAction.Subtractive => m.erase p
  | ShapeAction.NoChange => m

/-- `Shape::process(action, shapeable)`: scan every coordinate of the bounding
region, applying the effective action at each (`main_scene.rs` lines 66–92).
Returns the updated shape (the Rust method returns `&mut Self` for chaining). -/
def Shape.process (s : Shape) (action : ShapeAction) (shapeable : Shapable) : Shape :=
  { s with map := s.coords.foldl (Shape.processStep shapeable action) s.map }

/-- Number of the six face-neighbors of `(x,y,z)` occupied in the map: the
`counter` of `make_instances`, accumulated in the order the code checks
(`x+1, x-1, y+1, y-1, z+1, z-1`). -/
def Shape.neighborCount (s : Shape) (p : Coord) : Nat :=
  (if (p.1 + 1, p.2.1, p.2.2) ∈ s.map then 1 else 0) +
  (if (p.1 - 1, p.2.1, p.2.2) ∈ s.map then 1 else 0) +
  (if (p.1, p.2.1 + 1, p.2.2) ∈ s.map then 1 else 0) +
  (if (p.1, p.2.1 - 1, p.2.2) ∈ s.map then 1 else 0) +
  (if (p.1, p.2.1, p.2.2 + 1) ∈ s.map then 1 else 0) +
  (if (p.1, p.2.1, p.2.2 - 1) ∈ s.map then 1 else 0)

/-- `Shape::make_instances` (`main_scene.rs` lines 94–145): scan the bounding
region in order; skip unoccupied cells; for an occupied cell, emit its
instance iff at most 5 of its six face-neighbors are occupied. The two
`println!` diagnostics have no effect on the returned list. -/

def Shape.make_instances (s : Shape) : List StandardInstance :=
  s.coords.filterMap (fun p =>
    if p ∈ s.map then
      if s.neighborCount p ≤ 5 then some (Voxel.to_instance p) else none
    else none)

/-- The squared-distance helper `distance` in `main_scene.rs` (lines 262–266):
despite its name it returns the *squared* Euclidean distance (no square
root). Exact in `f32` for the values arising here; modelled over `Rat`. -/
def distance (x1 y1 z1 x2 y2 z2 : Rat) : Rat :=
  (x2 - x1) ^ 2 + (y2 - y1) ^ 2 + (z2 - z1) ^ 2

/-- `Sphere { position, radius }`; `radius` is `f32` in the source, modelled
as `Rat` (see header note). -/
structure Sphere where
  position : Coord
  radius : Rat

/-- `Sphere::new`. -/
def Sphere.new (position : Coord) (radius : Rat) : Sphere :=
  ⟨position, radius⟩

/-- `impl Shapable for Sphere`: pass the requested action through when the
squared distance from the center is at most `radius²`, else `NoChange`. -/
def Sphere.shapable (s : Sphere) : Shapable :=
  ⟨fun action x y z =>
    let d := distance s.position.1 s.position.2.1 s.position.2.2 x y z
    let radius_squared := s.radius ^ 2
    if d ≤ radius_squared then action else ShapeAction.NoChange⟩

/-- `UniformCube { position, diameter }`. -/
structure UniformCube where
  position : Coord
  diameter : Int

/-- `UniformCube::new`. -/
def UniformCube.new (position : Coord) (diameter : Int) : UniformCube :=
  ⟨position, diameter⟩

/-- `impl Shapable for UniformCube`: pass the action through inside the
symmetric box of half-width `diameter - 1` around `position` on each axis. -/
def UniformCube.shapable (c : UniformCube) : Shapable :=
  ⟨fun action x y z =>
    if x ≥ c.position.1 - (c.diameter - 1) ∧ x ≤ c.position.1 + c.diameter - 1 ∧
       y ≥ c.position.2.1 - (c.diameter - 1) ∧ y ≤ c.position.2.1 + c.diameter - 1 ∧
       z ≥ c.position.2.2 - (c.diameter - 1) ∧ z ≤ c.position.2.2 + c.diameter - 1
    then action else ShapeAction.NoChange⟩

/-- `VariableCube { position, width, height, depth }` (anchored at the minimum
corner; `at_center` shifts the anchor by half each dimension). -/
structure VariableCube where
  position : Coord
  width : Int
  height : Int
  depth : Int

/-- `VariableCube::at_point`. -/
def VariableCube.at_point (position : Coord) (width height depth : Int) : VariableCube :=
  ⟨position, width, height, depth⟩

/-- `impl Shapable for VariableCube`. -/
def VariableCube.shapable (c : VariableCube) : Shapable :=
  ⟨fun action x y z =>
    if x ≥ c.position.1 ∧ x ≤ c.position.1 + (c.width - 1) ∧
       y ≥ c.position.2.1 ∧ y ≤ c.position.2.1 + (c.height - 1) ∧
       z ≥ c.position.2.2 ∧ z ≤ c.position.2.2 + (c.depth - 1)
    then action else ShapeAction.NoChange⟩

/-- `(x,y,z)` lies in the shape's bounding region `[min, max)` on each axis. -/
def Shape.InBounds (s : Shape) (p : Coord) : Prop :=
  s.min_x ≤ p.1 ∧ p.1 < s.max_x ∧
  s.min_y ≤ p.2.1 ∧ p.2.1 < s.max_y ∧
  s.min_z ≤ p.2.2 ∧ p.2.2 < s.max_z

instance (s : Shape) (p : Coord) : Decidable (s.InBounds p) := by
  unfold Shape.InBounds; infer_instance

/-- A `Shapable` behaves as a membership predicate `mem`: it passes the
requested action through inside `mem` and reports `NoChange` outside,
independent of the requested action. All three `Shapable` impls in
`main_scene.rs` have this form. -/
def Shapable.IsPredicate (S : Shapable) (mem : Coord → Bool) : Prop :=
  ∀ a p, S.work a p.1 p.2.1 p.2.2 = if mem p then a else ShapeAction.NoChange

/-- A chain of `process` calls, as issued against one `Shape` value. -/
def Shape.processAll (s : Shape) (steps : List (ShapeAction × Shapable)) : Shape :=
  steps.foldl (fun sh st => sh.process st.1 st.2) s

/-- Strict lexicographic order on coordinates: `x` outermost, then `y`, then
`z` — the scan order of the nested loops. -/
def coordLex (p q : Coord) : Prop :=
  p.1 < q.1 ∨ (p.1 = q.1 ∧ (p.2.1 < q.2.1 ∨ (p.2.1 = q.2.1 ∧ p.2.2 < q.2.2)))

def shapeC1 : Shape := ⟨-2, -2, -2, 2, 2, 2, {(0, 0, 0)}⟩

def cubeUnit : UniformCube := UniformCube.new (0, 0, 0) 1

def shapeBounds2 : Shape := Shape.new (-2) (-2) (-2) 2 2 2

/-! ### The radius-1.5 sphere scenario (bounds (-2,-2,-2) → (2,2,2)) -/

/-- Integer form of the squared distance, used to transfer the `Rat`
computation of `distance` to a kernel-computable test. -/
def sqDistInt (x1 y1 z1 x2 y2 z2 : Int) : Int :=
  (x2 - x1) ^ 2 + (y2 - y1) ^ 2 + (z2 - z1) ^ 2

/-- The sphere of the spec scenario: center `(0,0,0)`, radius `1.5`. -/
def sphereC3 : Sphere := Sphere.new (0, 0, 0) (3 / 2)

/-- Integer-arithmetic form of the radius-1.5 sphere's `work` function,
extensionally equal to `sphereC3.shapable` (see `sphereC3_shapable_eq`) and
reducible in the kernel. -/
def sphereC3IntShapable : Shapable :=
  ⟨fun action x y z =>
    if 4 * sqDistInt 0 0 0 x y z ≤ 9 then action else ShapeAction.NoChange⟩

/-- The shape of the spec scenario after the additive sphere pass. -/
def shapeC3 : Shape :=
  (Shape.new (-2) (-2) (-2) 2 2 2).process ShapeAction.Additive sphereC3.shapable

def shapeC3Int : Shape :=
  (Shape.new (-2) (-2) (-2) 2 2 2).process ShapeAction.Additive sphereC3IntShapable

/-- The 7-cell "plus" cross the spec expects: origin plus the six cells at
±1 on a single axis. -/
def plusCross : Finset Coord :=
  {(0, 0, 0), (1, 0, 0), (-1, 0, 0), (0, 1, 0), (0, -1, 0), (0, 0, 1), (0, 0, -1)}

/-!
### `AppWorld::call_renderables` (`src/app/app_world/mod.rs`)

The engine facade's own implementation lives outside this repository's
sources; following §6 of the spec it is modelled as observable state: the
flag `has_vertex_buffer()` consults, a log of every buffer created through
`get_device().create_buffer_init`, and logs of the `set_vertex_buffer` /
`set_index_buffer` calls it receives. Buffer contents (vertex structs /
`u32` indices, passed through `bytemuck` casts untouched) are abstracted to
integer lists — `call_renderables` never inspects them.
-/

/-- `wgpu::BufferUsages` as used here: `VERTEX` or `INDEX`. -/
inductive BufferUsage where
  | VERTEX
  | INDEX
deriving DecidableEq, Repr

/-- A GPU buffer, identified by the raw contents it was created from and its
usage flag. -/
structure Buffer where
  contents : List Int
  usage : BufferUsage
deriving DecidableEq, Repr

/-- Modelled from the spec: the engine facade of §6 as observable state.
`set_vertex_buffer` records the buffer and raises `hasVertexBuffer` (a vertex
buffer now exists, which is what the §4.5 "build once" guard consults). -/
structure Engine where
  hasVertexBuffer : Bool
  createdBuffers : List Buffer
  vertexBufferSets : List Buffer
  indexBufferSets : List (Buffer × Nat)
deriving DecidableEq, Repr

/-- `engine.get_device().create_buffer_init(...)`: creates (and logs) a buffer
from raw contents. -/
def Engine.createBufferInit (e : Engine) (contents : List Int) (usage : BufferUsage) :
    Engine × Buffer :=
  let b : Buffer := ⟨contents, usage⟩
  ({ e with createdBuffers := e.createdBuffers ++ [b] }, b)

/-- `engine.set_vertex_buffer(buffer)`. -/
def Engine.set_vertex_buffer (e : Engine) (b : Buffer) : Engine :=
  { e with hasVertexBuffer := true, vertexBufferSets := e.vertexBufferSets ++ [b] }

/-- `engine.set_index_buffer(buffer, index_count)`. -/
def Engine.set_index_buffer (e : Engine) (b : Buffer) (n : Nat) : Engine :=
  { e with indexBufferSets := e.indexBufferSets ++ [(b, n)] }

/-- The `Renderable` trait surface consumed by `call_renderables`:
`do_render()`, `vertices()`, `indices()`. -/
structure Renderable where
  do_render : Bool
  vertices : List Int
  indices : List Int
deriving DecidableEq, Repr

/-- The `Object` trait surface consumed by `call_renderables` (its update side
is never touched there). -/
structure Object where
  do_render : Bool
  vertices : List Int
  indices : List Int
deriving DecidableEq, Repr

/-- The `AppWorld` struct: the three capability partitions. `Updateable`
members are never consulted by `call_renderables`, so they are carried
opaquely. -/
structure AppWorld where
  objects : List Object
  only_updateable : List Unit
  only_renderable : List Renderable
deriving DecidableEq, Repr

/-- The `(vertices, indices)` pairs `call_renderables` draws, in iteration
order: `do_render` pure renderables first, then `do_render` objects (the
chained iterator of lines 85–97). -/
def AppWorld.renderPairs (w : AppWorld) : List (List Int × List Int) :=
  (w.only_renderable.filter (fun r => r.do_render)).map (fun r => (r.vertices, r.indices)) ++
    (w.objects.filter (fun o => o.do_render)).map (fun o => (o.vertices, o.indices))

/-- One step of the buffer-building `map` (lines 99–118): create a vertex
buffer and an index buffer from the pair and append the triple. -/
def renderBufferStep (acc : Engine × List (Buffer × Buffer × Nat))
    (vi : List Int × List Int) : Engine × List (Buffer × Buffer × Nat) :=
  let indices_num := vi.2.length
  let r1 := acc.1.createBufferInit vi.1 BufferUsage.VERTEX
  let r2 := r1.1.createBufferInit vi.2 BufferUsage.INDEX
  (r2.1, acc.2 ++ [(r1.2, r2.2, indices_num)])

/-- `AppWorld::call_renderables` (lines 78–128): return immediately when the
engine already has a vertex buffer; otherwise build one vertex/index buffer
pair per rendering entity and bind only the popped last pair, dropping the
others. -/
def AppWorld.call_renderables (w : AppWorld) (engine : Engine) : AppWorld × Engine :=
  if engine.hasVertexBuffer then (w, engine)
  else
    let res := w.renderPairs.foldl renderBufferStep (engine, [])
    match res.2.getLast? with
    | none => (w, res.1)
    | some (vertex_buffer, index_buffer, index_num) =>
        (w, (res.1.set_vertex_buffer vertex_buffer).set_index_buffer index_buffer index_num)

def engineW : Engine := ⟨true, [], [], []⟩

def worldW : AppWorld :=
  ⟨[⟨true, [10, 11], [0, 1]⟩], [], [⟨true, [20, 21], [0]⟩, ⟨true, [30], [0, 1, 2]⟩]⟩

def engine0 : Engine := ⟨false, [], [], []⟩

def worldW2 : AppWorld :=
  ⟨[], [], [⟨true, [20, 21], [0]⟩, ⟨true, [30], [0, 1, 2]⟩]⟩

/-!
### The entity action protocol (§4.4)

Only the producer side of the protocol is under the given sources
(`MainScene::update`, `main_scene.rs` lines 344–351, returns the batch
`[Remove([MainScene::TAG]), Spawn([cheese])]`); the World registry and its
apply step live elsewhere in the repository, so they are modelled from the
spec, §4.4.
-/

/-- Modelled from the spec: an entity as registered in the World (§3, "a unit
of simulation identified by a human-readable tag"). `payload` stands for the
entity's remaining state and distinguishes distinct entities carrying the
same tag. -/
structure Entity where
  tag : String
  payload : Nat
deriving DecidableEq, Repr

/-- `EntityAction` (§3): `Spawn(ordered list of new entities)` or
`Remove(list of tags to delete)`. Its declaration is outside the given
sources; modelled from the spec. -/
inductive EntityAction where
  | Spawn (entities : List Entity)
  | Remove (tags : List String)

/-- Modelled from the spec: §4.4 two-phase application of a batch of entity
actions — "first perform all Removals (delete any registered entity whose tag
matches a name in any Remove action), then perform all Spawns (append new
entities)". -/
def applyActions (registry : List Entity) (actions : List EntityAction) : List Entity :=
  let removeTags := actions.flatMap (fun a => match a with
    | EntityAction.Remove tags => tags
    | EntityAction.Spawn _ => [])
  let afterRemovals := registry.filter (fun e => !(removeTags.contains e.tag))
  let spawned := actions.flatMap (fun a => match a with
    | EntityAction.Spawn es => es
    | EntityAction.Remove _ => [])
  afterRemovals ++ spawned

/-! ### Basic facts about the region scan -/

theorem mem_rangeInt {lo hi x : Int} : x ∈ rangeInt lo hi ↔ lo ≤ x ∧ x < hi := by
  simp only [rangeInt, List.mem_map, List.mem_range]
  constructor
  · rintro ⟨i, h1, rfl⟩
    omega
  · intro h
    exact ⟨(x - lo).toNat, by omega, by omega⟩

theorem mem_coords {s : Shape} {p : Coord} : p ∈ s.coords ↔ s.InBounds p := by
  obtain ⟨x, y, z⟩ := p
  simp only [Shape.coords, List.mem_flatMap, List.mem_map, mem_rangeInt, Shape.InBounds]
  constructor
  · rintro ⟨a, ha, b, hb, c, hc, h⟩
    obtain ⟨rfl, rfl, rfl⟩ : a = x ∧ b = y ∧ c = z := by
      refine ⟨congrArg Prod.fst h, ?_, ?_⟩
      · exact congrArg (fun q => q.2.1) h
      · exact congrArg (fun q => q.2.2) h
    exact ⟨ha.1, ha.2, hb.1, hb.2, hc.1, hc.2⟩
  · rintro ⟨h1, h2, h3, h4, h5, h6⟩
    exact ⟨x, ⟨h1, h2⟩, y, ⟨h3, h4⟩, z, ⟨h5, h6⟩, rfl⟩

theorem rangeInt_pairwise {lo hi : Int} : (rangeInt lo hi).Pairwise (· < ·) := by
  unfold rangeInt
  rw [List.pairwise_map]
  exact (List.pairwise_lt_range _).imp (by omega)

theorem coords_pairwise (s : Shape) : s.coords.Pairwise coordLex := by
  unfold Shape.coords
  rw [List.pairwise_flatMap]
  refine ⟨fun a _ => ?_, ?_⟩
  · rw [List.pairwise_flatMap]
    refine ⟨fun b _ => ?_, ?_⟩
    · rw [List.pairwise_map]
      exact rangeInt_pairwise.imp (fun h => Or.inr ⟨rfl, Or.inr ⟨rfl, h⟩⟩)
    · refine rangeInt_pairwise.imp ?_
      intro b1 b2 hb
      simp only [List.mem_map]
      rintro x ⟨c1, _, rfl⟩ y ⟨c2, _, rfl⟩
      exact Or.inr ⟨rfl, Or.inl hb⟩
  · refine rangeInt_pairwise.imp ?_
    intro a1 a2 ha
    simp only [List.mem_flatMap, List.mem_map]
    rintro x ⟨b1, _, c1, _, rfl⟩ y ⟨b2, _, c2, _, rfl⟩
    exact Or.inl ha

theorem coordLex_ne {p q : Coord} (h : coordLex p q) : p ≠ q := by
  obtain ⟨x, y, z⟩ := p
  obtain ⟨x', y', z'⟩ := q
  rintro ⟨⟩
  rcases h with h | ⟨_, h | ⟨_, h⟩⟩ <;> omega

theorem coords_nodup (s : Shape) : s.coords.Nodup :=
  (coords_pairwise s).imp coordLex_ne

/-! ### Behaviour of the `process` scan -/

theorem foldl_processStep_mem_or (S : Shapable) (a : ShapeAction) (l : List Coord)
    (m : Finset Coord) (q : Coord)
    (hq : q ∈ l.foldl (Shape.processStep S a) m) : q ∈ m ∨ q ∈ l := by
  induction l generalizing m with
  | nil => exact Or.inl (by simpa using hq)
  | cons p t ih =>
    rw [List.foldl_cons] at hq
    rcases ih _ hq with h | h
    · unfold Shape.processStep at h
      rcases hw : S.work a p.1 p.2.1 p.2.2 <;> rw [hw] at h
      · rcases Finset.mem_insert.mp h with h' | h'
        · exact Or.inr (h' ▸ List.mem_cons_self p t)
        · exact Or.inl h'
      · exact Or.inl (Finset.mem_erase.mp h).2
      · exact Or.inl h
    · exact Or.inr (List.mem_cons_of_mem _ h)

theorem foldl_additive_mem (S : Shapable) (mem : Coord → Bool) (h : S.IsPredicate mem)
    (l : List Coord) (m : Finset Coord) (q : Coord) :
    q ∈ l.foldl (Shape.processStep S ShapeAction.Additive) m ↔
      q ∈ m ∨ (q ∈ l ∧ mem q = true) := by
  induction l generalizing m with
  | nil => simp
  | cons p t ih =>
    rw [List.foldl_cons, ih]
    have hstep : Shape.processStep S ShapeAction.Additive m p =
        if mem p then insert p m else m := by
      unfold Shape.processStep
      rw [h ShapeAction.Additive p]
      by_cases hm : mem p = true <;> simp [hm]
    rw [hstep]
    by_cases hm : mem p = true
    · rw [if_pos hm]
      simp only [Finset.mem_insert, List.mem_cons]
      constructor
      · rintro ((rfl | hq) | ⟨hqt, hmq⟩)
        · exact Or.inr ⟨Or.inl rfl, hm⟩
        · exact Or.inl hq
        · exact Or.inr ⟨Or.inr hqt, hmq⟩
      · rintro (hq | ⟨rfl | hqt, hmq⟩)
        · exact Or.inl (Or.inr hq)
        · exact Or.inl (Or.inl rfl)
        · exact Or.inr ⟨hqt, hmq⟩
    · rw [if_neg hm]
      simp only [List.mem_cons]
      constructor
      · rintro (hq | ⟨hqt, hmq⟩)
        · exact Or.inl hq
        · exact Or.inr ⟨Or.inr hqt, hmq⟩
      · rintro (hq | ⟨rfl | hqt, hmq⟩)
        · exact Or.inl hq
        · exact absurd hmq hm
        · exact Or.inr ⟨hqt, hmq⟩

theorem foldl_subtractive_mem (S : Shapable) (mem : Coord → Bool) (h : S.IsPredicate mem)
    (l : List Coord) (m : Finset Coord) (q : Coord) :
    q ∈ l.foldl (Shape.processStep S ShapeAction.Subtractive) m ↔
      q ∈ m ∧ ¬(q ∈ l ∧ mem q = true) := by
  induction l generalizing m with
  | nil => simp
  | cons p t ih =>
    rw [List.foldl_cons, ih]
    have hstep : Shape.processStep S ShapeAction.Subtractive m p =
        if mem p then m.erase p else m := by
      unfold Shape.processStep
      rw [h ShapeAction.Subtractive p]
      by_cases hm : mem p = true <;> simp [hm]
    rw [hstep]
    by_cases hm : mem p = true
    · rw [if_pos hm]
      simp only [Finset.mem_erase, List.mem_cons]
      constructor
      · rintro ⟨⟨hne, hqm⟩, hnt⟩
        refine ⟨hqm, ?_⟩
        rintro ⟨rfl | hqt, hmq⟩
        · exact hne rfl
        · exact hnt ⟨hqt, hmq⟩
      · rintro ⟨hqm, hn⟩
        refine ⟨⟨?_, hqm⟩, ?_⟩
        · rintro rfl
          exact hn ⟨Or.inl rfl, hm⟩
        · rintro ⟨hqt, hmq⟩
          exact hn ⟨Or.inr hqt, hmq⟩
    · rw [if_neg hm]
      simp only [List.mem_cons]
      constructor
      · rintro ⟨hqm, hnt⟩
        refine ⟨hqm, ?_⟩
        rintro ⟨rfl | hqt, hmq⟩
        · exact hm hmq
        · exact hnt ⟨hqt, hmq⟩
      · rintro ⟨hqm, hn⟩
        refine ⟨hqm, ?_⟩
        rintro ⟨hqt, hmq⟩
        exact hn ⟨Or.inr hqt, hmq⟩

theorem process_mem_or (s : Shape) (a : ShapeAction) (S : Shapable) (q : Coord)
    (hq : q ∈ (s.process a S).map) : q ∈ s.map ∨ s.InBounds q := by
  rcases foldl_processStep_mem_or S a s.coords s.map q hq with h | h
  · exact Or.inl h
  · exact Or.inr (mem_coords.mp h)

theorem process_additive_mem (s : Shape) (S : Shapable) (mem : Coord → Bool)
    (h : S.IsPredicate mem) (q : Coord) :
    q ∈ (s.process ShapeAction.Additive S).map ↔
      q ∈ s.map ∨ (s.InBounds q ∧ mem q = true) := by
  show q ∈ s.coords.foldl (Shape.processStep S ShapeAction.Additive) s.map ↔ _
  rw [foldl_additive_mem S mem h]
  rw [show (q ∈ s.coords) = s.InBounds q from propext mem_coords]

theorem process_subtractive_mem (s : Shape) (S : Shapable) (mem : Coord → Bool)
    (h : S.IsPredicate mem) (q : Coord) :
    q ∈ (s.process ShapeAction.Subtractive S).map ↔
      q ∈ s.map ∧ ¬(s.InBounds q ∧ mem q = true) := by
  show q ∈ s.coords.foldl (Shape.processStep S ShapeAction.Subtractive) s.map ↔ _
  rw [foldl_subtractive_mem S mem h]
  rw [show (q ∈ s.coords) = s.InBounds q from propext mem_coords]

/-! ### Behaviour of `make_instances` -/

theorem filterMap_guard_eq_filter_map {α β : Type} (P Q : α → Prop)
    [DecidablePred P] [DecidablePred Q] (g : α → β) (l : List α) :
    (l.filterMap (fun p => if P p then if Q p then some (g p) else none else none)) =
      (l.filter (fun p => decide (P p) && decide (Q p))).map g := by
  induction l with
  | nil => rfl
  | cons p t ih =>
    by_cases h1 : P p <;> by_cases h2 : Q p <;>
      simp [List.filterMap_cons, List.filter_cons, h1, h2, ih]

theorem make_instances_eq (s : Shape) :
    s.make_instances =
      (s.coords.filter
        (fun p => decide (p ∈ s.map) && decide (s.neighborCount p ≤ 5))).map
        Voxel.to_instance :=
  filterMap_guard_eq_filter_map (fun p => p ∈ s.map) (fun p => s.neighborCount p ≤ 5)
    Voxel.to_instance s.coords

theorem make_instances_positions (s : Shape) :
    s.make_instances.map StandardInstance.position =
      s.coords.filter (fun p => decide (p ∈ s.map) && decide (s.neighborCount p ≤ 5)) := by
  rw [make_instances_eq, List.map_map]
  exact List.map_id _

theorem mem_make_instances_positions {s : Shape} {p : Coord} :
    p ∈ s.make_instances.map StandardInstance.position ↔
      s.InBounds p ∧ p ∈ s.map ∧ s.neighborCount p ≤ 5 := by
  rw [make_instances_positions]
  simp only [List.mem_filter, Bool.and_eq_true, decide_eq_true_eq]
  rw [show (p ∈ s.coords) = s.InBounds p from propext mem_coords]

/-! ### The concrete `Shapable` impls are membership predicates -/

theorem uniformCube_isPredicate (c : UniformCube) :
    c.shapable.IsPredicate (fun p =>
      decide (p.1 ≥ c.position.1 - (c.diameter - 1) ∧ p.1 ≤ c.position.1 + c.diameter - 1 ∧
        p.2.1 ≥ c.position.2.1 - (c.diameter - 1) ∧ p.2.1 ≤ c.position.2.1 + c.diameter - 1 ∧
        p.2.2 ≥ c.position.2.2 - (c.diameter - 1) ∧ p.2.2 ≤ c.position.2.2 + c.diameter - 1)) := by
  intro a p
  show (if _ then a else ShapeAction.NoChange) = _
  by_cases h : p.1 ≥ c.position.1 - (c.diameter - 1) ∧ p.1 ≤ c.position.1 + c.diameter - 1 ∧
      p.2.1 ≥ c.position.2.1 - (c.diameter - 1) ∧ p.2.1 ≤ c.position.2.1 + c.diameter - 1 ∧
      p.2.2 ≥ c.position.2.2 - (c.diameter - 1) ∧ p.2.2 ≤ c.position.2.2 + c.diameter - 1 <;>
    simp [h]

theorem variableCube_isPredicate (c : VariableCube) :
    c.shapable.IsPredicate (fun p =>
      decide (p.1 ≥ c.position.1 ∧ p.1 ≤ c.position.1 + (c.width - 1) ∧
        p.2.1 ≥ c.position.2.1 ∧ p.2.1 ≤ c.position.2.1 + (c.height - 1) ∧
        p.2.2 ≥ c.position.2.2 ∧ p.2.2 ≤ c.position.2.2 + (c.depth - 1))) := by
  intro a p
  show (if _ then a else ShapeAction.NoChange) = _
  by_cases h : p.1 ≥ c.position.1 ∧ p.1 ≤ c.position.1 + (c.width - 1) ∧
      p.2.1 ≥ c.position.2.1 ∧ p.2.1 ≤ c.position.2.1 + (c.height - 1) ∧
      p.2.2 ≥ c.position.2.2 ∧ p.2.2 ≤ c.position.2.2 + (c.depth - 1) <;>
    simp [h]

theorem sphere_isPredicate (s : Sphere) :
    s.shapable.IsPredicate (fun p =>
      decide (distance (s.position.1 : Rat) (s.position.2.1 : Rat) (s.position.2.2 : Rat)
        (p.1 : Rat) (p.2.1 : Rat) (p.2.2 : Rat) ≤ s.radius ^ 2)) := by
  intro a p
  show (if _ then a else ShapeAction.NoChange) = _
  by_cases h : distance (s.position.1 : Rat) (s.position.2.1 : Rat) (s.position.2.2 : Rat)
      (p.1 : Rat) (p.2.1 : Rat) (p.2.2 : Rat) ≤ s.radius ^ 2 <;>
    simp [h]

/-! ### Bounds preservation and the region invariant -/

theorem process_bounds (s : Shape) (a : ShapeAction) (S : Shapable) :
    (s.process a S).min_x = s.min_x ∧ (s.process a S).min_y = s.min_y ∧
    (s.process a S).min_z = s.min_z ∧ (s.process a S).max_x = s.max_x ∧
    (s.process a S).max_y = s.max_y ∧ (s.process a S).max_z = s.max_z :=
  ⟨rfl, rfl, rfl, rfl, rfl, rfl⟩

theorem process_inBounds_iff (s : Shape) (a : ShapeAction) (S : Shapable) (p : Coord) :
    (s.process a S).InBounds p ↔ s.InBounds p := Iff.rfl

theorem process_keeps_invariant (s : Shape) (a : ShapeAction) (S : Shapable)
    (h : ∀ q ∈ s.map, s.InBounds q) :
    ∀ q ∈ (s.process a S).map, (s.process a S).InBounds q := by
  intro q hq
  rw [process_inBounds_iff]
  rcases process_mem_or s a S q hq with h' | h'
  · exact h q h'
  · exact h'

theorem processAll_keeps_invariant (steps : List (ShapeAction × Shapable)) :
    ∀ (s : Shape), (∀ q ∈ s.map, s.InBounds q) →
      ∀ q ∈ (s.processAll steps).map, (s.processAll steps).InBounds q := by
  induction steps with
  | nil => intro s h q hq; exact h q hq
  | cons st t ih =>
    intro s h q hq
    exact ih (s.process st.1 st.2) (process_keeps_invariant s st.1 st.2 h) q hq

theorem processAll_bounds (steps : List (ShapeAction × Shapable)) :
    ∀ s : Shape, (s.processAll steps).min_x = s.min_x ∧
      (s.processAll steps).min_y = s.min_y ∧ (s.processAll steps).min_z = s.min_z ∧
      (s.processAll steps).max_x = s.max_x ∧ (s.processAll steps).max_y = s.max_y ∧
      (s.processAll steps).max_z = s.max_z := by
  induction steps with
  | nil => intro s; exact ⟨rfl, rfl, rfl, rfl, rfl, rfl⟩
  | cons st t ih => intro s; exact ih (s.process st.1 st.2)

/-! ### Claim theorems: culling, carving, invariant, unit cube -/

/-- C1: for every `Shape` (whose voxel keys lie in its bounding region, the
invariant every `Shape` built through `new`/`process` satisfies),
`make_instances` emits an instance at an occupied voxel iff at most 5 of its
six face-neighbors are occupied; a voxel with all 6 neighbors occupied is
never emitted, and an occupied voxel with 0 occupied neighbors always is. -/
theorem make_instances_emits_iff_at_most_five_neighbors (s : Shape)
    (h : ∀ q ∈ s.map, s.InBounds q) (p : Coord) :
    (p ∈ s.make_instances.map StandardInstance.position ↔
        p ∈ s.map ∧ s.neighborCount p ≤ 5) ∧
      (s.neighborCount p = 6 → p ∉ s.make_instances.map StandardInstance.position) ∧
      (p ∈ s.map ∧ s.neighborCount p = 0 →
        p ∈ s.make_instances.map StandardInstance.position) := by
  have hiff : p ∈ s.make_instances.map StandardInstance.position ↔
      p ∈ s.map ∧ s.neighborCount p ≤ 5 := by
    rw [mem_make_instances_positions]
    constructor
    · rintro ⟨_, h2, h3⟩
      exact ⟨h2, h3⟩
    · rintro ⟨h2, h3⟩
      exact ⟨h p h2, h2, h3⟩
  refine ⟨hiff, ?_, ?_⟩
  · intro h6 hmem
    have hle := (hiff.mp hmem).2
    omega
  · rintro ⟨hm, h0⟩
    exact hiff.mpr ⟨hm, by omega⟩

theorem make_instances_emits_iff_at_most_five_neighbors_witness :
    (∀ q ∈ shapeC1.map, shapeC1.InBounds q) ∧
      (((0 : Int), (0 : Int), (0 : Int)) ∈
          shapeC1.make_instances.map StandardInstance.position ↔
        ((0 : Int), (0 : Int), (0 : Int)) ∈ shapeC1.map ∧
          shapeC1.neighborCount ((0 : Int), (0 : Int), (0 : Int)) ≤ 5) :=
  ⟨by decide,
   (make_instances_emits_iff_at_most_five_neighbors shapeC1 (by decide)
     ((0 : Int), (0 : Int), (0 : Int))).1⟩

/-- C2: for any `Shape` and any predicate-style `Shapable` `S` (all three impls
in the source are of this form), `process(Additive, S)` followed by
`process(Subtractive, S)` leaves the map empty at every coordinate inside
`S`'s footprint intersected with the bounding region. -/
theorem process_additive_then_subtractive_carves_empty (s : Shape) (S : Shapable)
    (mem : Coord → Bool) (hS : S.IsPredicate mem) (p : Coord)
    (hin : s.InBounds p) (hmem : mem p = true) :
    p ∉ ((s.process ShapeAction.Additive S).process ShapeAction.Subtractive S).map := by
  intro hp
  have h2 := (process_subtractive_mem (s.process ShapeAction.Additive S) S mem hS p).mp hp
  exact h2.2 ⟨hin, hmem⟩

theorem process_additive_then_subtractive_carves_empty_witness :
    ((0 : Int), (0 : Int), (0 : Int)) ∉
      ((shapeBounds2.process ShapeAction.Additive cubeUnit.shapable).process
        ShapeAction.Subtractive cubeUnit.shapable).map :=
  process_additive_then_subtractive_carves_empty shapeBounds2 cubeUnit.shapable _
    (uniformCube_isPredicate cubeUnit) ((0 : Int), (0 : Int), (0 : Int))
    (by decide) (by decide)

/-- C5: after any sequence of `process` calls starting from `Shape::new`, every
key in the sparse voxel map lies inside the bounding region. -/
theorem processAll_map_within_bounds (min_x min_y min_z max_x max_y max_z : Int)
    (steps : List (ShapeAction × Shapable)) (p : Coord)
    (hp : p ∈ ((Shape.new min_x min_y min_z max_x max_y max_z).processAll steps).map) :
    min_x ≤ p.1 ∧ p.1 < max_x ∧ min_y ≤ p.2.1 ∧ p.2.1 < max_y ∧
      min_z ≤ p.2.2 ∧ p.2.2 < max_z := by
  have h := processAll_keeps_invariant steps (Shape.new min_x min_y min_z max_x max_y max_z)
    (by intro q hq; exact absurd hq (Finset.not_mem_empty q)) p hp
  have hb := processAll_bounds steps (Shape.new min_x min_y min_z max_x max_y max_z)
  unfold Shape.InBounds at h
  rw [hb.1, hb.2.1, hb.2.2.1, hb.2.2.2.1, hb.2.2.2.2.1, hb.2.2.2.2.2] at h
  exact ⟨h.1, h.2.1, h.2.2.1, h.2.2.2.1, h.2.2.2.2.1, h.2.2.2.2.2⟩

theorem processAll_map_within_bounds_witness :
    (((0 : Int), (0 : Int), (0 : Int)) ∈
        ((Shape.new (-2) (-2) (-2) 2 2 2).processAll
          [(ShapeAction.Additive, cubeUnit.shapable)]).map) ∧
      ((-2 : Int) ≤ 0 ∧ (0 : Int) < 2 ∧ (-2 : Int) ≤ 0 ∧ (0 : Int) < 2 ∧
        (-2 : Int) ≤ 0 ∧ (0 : Int) < 2) :=
  ⟨by decide,
   processAll_map_within_bounds (-2) (-2) (-2) 2 2 2
     [(ShapeAction.Additive, cubeUnit.shapable)] ((0 : Int), (0 : Int), (0 : Int))
     (by decide)⟩

/-- C9: a `UniformCube` admits exactly the symmetric box of half-width
`diameter − 1` around its center on each axis, and
`process(Additive, UniformCube::new((0,0,0), 1))` on a shape whose empty-map
bounding region contains the origin occupies exactly the single cell
`(0,0,0)`. -/
theorem uniformCube_unit_single_cell :
    (∀ (c : UniformCube) (a : ShapeAction) (x y z : Int),
        c.shapable.work a x y z =
          if |x - c.position.1| ≤ c.diameter - 1 ∧ |y - c.position.2.1| ≤ c.diameter - 1 ∧
              |z - c.position.2.2| ≤ c.diameter - 1
          then a else ShapeAction.NoChange) ∧
      (∀ s : Shape, s.map = ∅ → s.InBounds (0, 0, 0) →
        (s.process ShapeAction.Additive (UniformCube.new (0, 0, 0) 1).shapable).map =
          {((0 : Int), (0 : Int), (0 : Int))}) := by
  constructor
  · intro c a x y z
    show (if _ then a else ShapeAction.NoChange) = _
    refine if_congr ?_ rfl rfl
    rw [abs_le, abs_le, abs_le]
    omega
  · intro s hmap hin
    ext q
    rw [Finset.mem_singleton,
      process_additive_mem s _ _ (uniformCube_isPredicate (UniformCube.new (0, 0, 0) 1)) q,
      hmap]
    simp only [Finset.not_mem_empty, false_or, decide_eq_true_eq]
    constructor
    · rintro ⟨_, hmem⟩
      obtain ⟨x, y, z⟩ := q
      obtain ⟨h1, h2, h3, h4, h5, h6⟩ := hmem
      simp only [UniformCube.new] at h1 h2 h3 h4 h5 h6
      have hx : x = 0 := by omega
      have hy : y = 0 := by omega
      have hz : z = 0 := by omega
      rw [hx, hy, hz]
    · rintro rfl
      exact ⟨hin, by decide⟩

theorem uniformCube_unit_single_cell_witness :
    (shapeBounds2.process ShapeAction.Additive (UniformCube.new (0, 0, 0) 1).shapable).map =
      {((0 : Int), (0 : Int), (0 : Int))} :=
  uniformCube_unit_single_cell.2 shapeBounds2 rfl (by decide)

theorem distance_intCast (x1 y1 z1 x2 y2 z2 : Int) :
    distance (x1 : Rat) (y1 : Rat) (z1 : Rat) (x2 : Rat) (y2 : Rat) (z2 : Rat) =
      ((sqDistInt x1 y1 z1 x2 y2 z2 : Int) : Rat) := by
  unfold distance sqDistInt
  push_cast
  ring

theorem sphere_radius_3_2_mem (cx cy cz x y z : Int) :
    (distance (cx : Rat) (cy : Rat) (cz : Rat) (x : Rat) (y : Rat) (z : Rat) ≤
        ((3 : Rat) / 2) ^ 2) ↔
      4 * sqDistInt cx cy cz x y z ≤ 9 := by
  rw [distance_intCast]
  constructor
  · intro h
    have h4 : ((4 * sqDistInt cx cy cz x y z : Int) : Rat) ≤ ((9 : Int) : Rat) := by
      push_cast
      nlinarith [h]
    exact_mod_cast h4
  · intro h
    have h4 : ((4 * sqDistInt cx cy cz x y z : Int) : Rat) ≤ ((9 : Int) : Rat) := by
      exact_mod_cast h
    push_cast at h4
    nlinarith [h4]

theorem sphereC3_shapable_eq : sphereC3.shapable = sphereC3IntShapable := by
  show Shapable.mk _ = Shapable.mk _
  congr 1
  funext action x y z
  show (if distance ((0 : Int) : Rat) ((0 : Int) : Rat) ((0 : Int) : Rat)
          (x : Rat) (y : Rat) (z : Rat) ≤ ((3 : Rat) / 2) ^ 2
        then action else ShapeAction.NoChange) =
      (if 4 * sqDistInt 0 0 0 x y z ≤ 9 then action else ShapeAction.NoChange)
  exact if_congr (sphere_radius_3_2_mem 0 0 0 x y z) rfl rfl

theorem shapeC3_eq_int : shapeC3 = shapeC3Int := by
  unfold shapeC3 shapeC3Int
  rw [sphereC3_shapable_eq]

/-- C3 counterexample: applying `process(Additive, Sphere::new((0,0,0), 1.5))`
to the shape with bounds (-2,-2,-2) → (2,2,2) does NOT yield the 7-cell plus
cross: the cell (1,1,0) (squared distance 2 ≤ 2.25) is also occupied, so the
map differs from the plus cross. -/
theorem sphere_scenario_not_plus_cross :
    ((1 : Int), (1 : Int), (0 : Int)) ∈ shapeC3.map ∧
      ((1 : Int), (1 : Int), (0 : Int)) ∉ plusCross ∧
      shapeC3.map ≠ plusCross := by
  rw [shapeC3_eq_int]
  refine ⟨by decide, by decide, fun he => ?_⟩
  have h1 : ((1 : Int), (1 : Int), (0 : Int)) ∈ shapeC3Int.map := by decide
  rw [he] at h1
  exact absurd h1 (by decide)

/-- C3 amended: the scenario actually yields the 19 cells of squared distance
at most 2.25 from the origin — the plus cross together with the twelve
two-axis ±1 cells; `make_instances` then emits all of them except the origin,
which has all 6 face-neighbors occupied and is culled, giving 18 instances in
scan order. -/
theorem sphere_scenario_amended :
    shapeC3.map =
      ({(-1, -1, 0), (-1, 0, -1), (-1, 0, 0), (-1, 0, 1), (-1, 1, 0),
        (0, -1, -1), (0, -1, 0), (0, -1, 1), (0, 0, -1), (0, 0, 0), (0, 0, 1),
        (0, 1, -1), (0, 1, 0), (0, 1, 1),
        (1, -1, 0), (1, 0, -1), (1, 0, 0), (1, 0, 1), (1, 1, 0)} : Finset Coord) ∧
      shapeC3.neighborCount (0, 0, 0) = 6 ∧
      shapeC3.make_instances =
        [⟨(-1, -1, 0), (0, 0, 0, 0)⟩, ⟨(-1, 0, -1), (0, 0, 0, 0)⟩,
         ⟨(-1, 0, 0), (0, 0, 0, 0)⟩, ⟨(-1, 0, 1), (0, 0, 0, 0)⟩,
         ⟨(-1, 1, 0), (0, 0, 0, 0)⟩, ⟨(0, -1, -1), (0, 0, 0, 0)⟩,
         ⟨(0, -1, 0), (0, 0, 0, 0)⟩, ⟨(0, -1, 1), (0, 0, 0, 0)⟩,
         ⟨(0, 0, -1), (0, 0, 0, 0)⟩, ⟨(0, 0, 1), (0, 0, 0, 0)⟩,
         ⟨(0, 1, -1), (0, 0, 0, 0)⟩, ⟨(0, 1, 0), (0, 0, 0, 0)⟩,
         ⟨(0, 1, 1), (0, 0, 0, 0)⟩, ⟨(1, -1, 0), (0, 0, 0, 0)⟩,
         ⟨(1, 0, -1), (0, 0, 0, 0)⟩, ⟨(1, 0, 0), (0, 0, 0, 0)⟩,
         ⟨(1, 0, 1), (0, 0, 0, 0)⟩, ⟨(1, 1, 0), (0, 0, 0, 0)⟩] := by
  rw [shapeC3_eq_int]
  refine ⟨by decide, by decide, by decide⟩

/-- C6 evaluation: `Shape::new` performs no validation whatsoever — with
inverted bounds it succeeds, the scan list is empty, and `process` iterates
zero coordinates, silently returning an empty map. -/
theorem shape_new_inverted_bounds_silently_empty :
    (Shape.new 2 2 2 (-2) (-2) (-2)).map = ∅ ∧
      (Shape.new 2 2 2 (-2) (-2) (-2)).coords = [] ∧
      ((Shape.new 2 2 2 (-2) (-2) (-2)).process ShapeAction.Additive
          (UniformCube.new (0, 0, 0) 5).shapable).map = ∅ := by
  exact ⟨rfl, by decide, by decide⟩

/-- C10: `make_instances` is deterministic and order-stable: the emitted
positions follow the strict lexicographic scan order of the bounding region
(`x` outermost, then `y`, then `z`), hence contain no duplicates (at most one
instance per occupied cell); every emitted instance sits at an occupied
voxel's lattice coordinates with rotation quaternion exactly `(0,0,0,0)`;
and equal shape states yield identical lists. -/
theorem make_instances_deterministic_ordered (s : Shape) :
    (s.make_instances.map StandardInstance.position).Pairwise coordLex ∧
      (s.make_instances.map StandardInstance.position).Nodup ∧
      s.make_instances =
        (s.make_instances.map StandardInstance.position).map Voxel.to_instance ∧
      (∀ t : Shape, t = s → t.make_instances = s.make_instances) := by
  have hpos := make_instances_positions s
  have hpw : (s.make_instances.map StandardInstance.position).Pairwise coordLex := by
    rw [hpos]
    exact List.Pairwise.sublist (List.filter_sublist s.coords) (coords_pairwise s)
  refine ⟨hpw, hpw.imp coordLex_ne, ?_, fun t ht => ht ▸ rfl⟩
  rw [hpos, make_instances_eq]

theorem foldl_renderBufferStep (pairs : List (List Int × List Int)) :
    ∀ (e : Engine) (bs : List (Buffer × Buffer × Nat)),
      pairs.foldl renderBufferStep (e, bs) =
        ({ e with createdBuffers := e.createdBuffers ++
            pairs.flatMap (fun vi => [⟨vi.1, BufferUsage.VERTEX⟩, ⟨vi.2, BufferUsage.INDEX⟩]) },
         bs ++ pairs.map (fun vi =>
            (⟨vi.1, BufferUsage.VERTEX⟩, ⟨vi.2, BufferUsage.INDEX⟩, vi.2.length))) := by
  induction pairs with
  | nil => intro e bs; simp
  | cons p t ih =>
    intro e bs
    rw [List.foldl_cons]
    show t.foldl renderBufferStep
        ({ e with createdBuffers := e.createdBuffers ++ [⟨p.1, BufferUsage.VERTEX⟩] ++ [⟨p.2, BufferUsage.INDEX⟩] },
         bs ++ [(⟨p.1, BufferUsage.VERTEX⟩, ⟨p.2, BufferUsage.INDEX⟩, p.2.length)]) = _
    rw [ih]
    simp [List.append_assoc]

/-- C8: if the engine already has a vertex buffer when `call_renderables` is
invoked, the call returns immediately: no buffer is constructed (creation log
unchanged), no set call is made, and world and engine are returned exactly as
they were. -/
theorem call_renderables_skips_when_vertex_buffer_exists (w : AppWorld) (engine : Engine)
    (h : engine.hasVertexBuffer = true) :
    w.call_renderables engine = (w, engine) := by
  unfold AppWorld.call_renderables
  rw [h]
  simp

theorem call_renderables_skips_when_vertex_buffer_exists_witness :
    worldW.call_renderables engineW = (worldW, engineW) :=
  call_renderables_skips_when_vertex_buffer_exists worldW engineW rfl

/-- C7: with no pre-existing vertex buffer and two or more rendering entities
producing geometry, a vertex/index buffer pair is created for every one of
them, but exactly one pair is handed to the engine facade — the last one in
iteration order; the pairs built for all earlier renderables are dropped
without ever being set. -/
theorem call_renderables_last_buffer_wins (w : AppWorld) (engine : Engine)
    (lp : List Int × List Int)
    (h0 : engine.hasVertexBuffer = false)
    (hn : 2 ≤ w.renderPairs.length)
    (hlast : w.renderPairs.getLast? = some lp) :
    w.call_renderables engine =
      (w,
       { hasVertexBuffer := true,
         createdBuffers := engine.createdBuffers ++
           w.renderPairs.flatMap (fun vi =>
             [⟨vi.1, BufferUsage.VERTEX⟩, ⟨vi.2, BufferUsage.INDEX⟩]),
         vertexBufferSets := engine.vertexBufferSets ++ [⟨lp.1, BufferUsage.VERTEX⟩],
         indexBufferSets := engine.indexBufferSets ++
           [(⟨lp.2, BufferUsage.INDEX⟩, lp.2.length)] }) := by
  unfold AppWorld.call_renderables
  rw [h0]
  simp only [Bool.false_eq_true, if_false]
  rw [foldl_renderBufferStep, List.nil_append, List.getLast?_map, hlast]
  rfl

theorem call_renderables_last_buffer_wins_witness :
    worldW2.call_renderables engine0 =
      (worldW2,
       { hasVertexBuffer := true,
         createdBuffers := engine0.createdBuffers ++
           worldW2.renderPairs.flatMap (fun vi =>
             [⟨vi.1, BufferUsage.VERTEX⟩, ⟨vi.2, BufferUsage.INDEX⟩]),
         vertexBufferSets := engine0.vertexBufferSets ++ [⟨[30], BufferUsage.VERTEX⟩],
         indexBufferSets := engine0.indexBufferSets ++
           [(⟨[0, 1, 2], BufferUsage.INDEX⟩, 3)] }) :=
  call_renderables_last_buffer_wins worldW2 engine0 ([30], [0, 1, 2]) rfl
    (by decide) (by decide)

/-- C4 (spec-modelled): applying the batch `[Remove(["A"]), Spawn([b])]` with
`b` tagged `"A"` to any registry performs the removal before the spawn, so
afterwards exactly one entity tagged `"A"` remains — the newly spawned `b`,
never zero and never two. -/
theorem apply_remove_then_spawn_replaces (registry : List Entity) (b : Entity)
    (hb : b.tag = "A") :
    (applyActions registry
        [EntityAction.Remove ["A"], EntityAction.Spawn [b]]).filter
      (fun e => e.tag == "A") = [b] := by
  unfold applyActions
  simp only [List.flatMap_cons, List.flatMap_nil, List.append_nil, List.nil_append]
  rw [List.filter_append, List.filter_filter]
  have h1 : (registry.filter fun e =>
      (e.tag == "A") && !(["A"].contains e.tag)) = [] := by
    rw [List.filter_eq_nil_iff]
    intro e _
    cases h : (e.tag == "A") <;> simp [h]
    exact eq_of_beq h
  rw [h1, List.nil_append]
  simp [hb]

theorem apply_remove_then_spawn_replaces_witness :
    (applyActions [⟨"A", 0⟩, ⟨"B", 1⟩]
        [EntityAction.Remove ["A"], EntityAction.Spawn [⟨"A", 7⟩]]).filter
      (fun e => e.tag == "A") = [⟨"A", 7⟩] :=
  apply_remove_then_spawn_replaces [⟨"A", 0⟩, ⟨"B", 1⟩] ⟨"A", 7⟩ rfl

theorem make_instances_deterministic_ordered_witness :
    shapeC1.make_instances = shapeC1.make_instances ∧
      (shapeC1.make_instances.map StandardInstance.position).Nodup :=
  ⟨(make_instances_deterministic_ordered shapeC1).2.2.2 shapeC1 rfl,
   (make_instances_deterministic_ordered shapeC1).2.1⟩
